import Mathlib

/-
Verification of the streaming wiki-dump transformation pipeline
(package `xml`, file `xml.go`).

Strings are modelled as `List Char`.  `strings.ReplaceAll` /
`strings.Replace(s, old, new, -1)` is modelled by `replaceAll`, a
leftmost, non-overlapping replacement function (fuel-structured so that
it computes by kernel reduction).  The Go standard library calls that
the program makes (`os.Open`, `os.Create`, `f.Write`, `exec.Command`,
`xml.Marshal`, `xml.MarshalIndent`) are modelled either concretely
(the serializer, from the documented behaviour of `encoding/xml` on the
`Page` struct) or as oracle parameters (file-system and subprocess
outcomes), with `panic` rendered as `Except.error`.
-/

/-- The link-opening delimiter `[[` of `startWorker`. -/
def lbTok : List Char := ("[[").toList

/-- The link-closing delimiter `]]` of `startWorker`. -/
def rbTok : List Char := ("]]").toList

/-- The sentinel placeholder substituted for `[[`. -/
def startTok : List Char := ("<SPEC_START>").toList

/-- The sentinel placeholder substituted for `]]`. -/
def endTok : List Char := ("<SPEC_END>").toList

/-- The encoded-newline artifact stripped by `startWriter`. -/
def xaTok : List Char := ("&#xA;").toList

/-- The redirect marker checked by `startWorker`. -/
def redirectTok : List Char := ("#REDIRECT").toList

/-- Fuel-structured core of `strings.ReplaceAll`: scan left to right,
on a match consume the pattern and emit the replacement, otherwise copy
one character.  `fuel` bounds the recursion; it is adequate whenever
`s.length ≤ fuel`. -/
def goFuel (pat rep : List Char) : Nat → List Char → List Char
  | _, [] => []
  | 0, s => s
  | fuel + 1, c :: s =>
    if pat.isPrefixOf (c :: s) then
      rep ++ goFuel pat rep fuel (List.drop (pat.length - 1) s)
    else
      c :: goFuel pat rep fuel s

/-- Model of Go `strings.ReplaceAll s pat rep` (for empty `pat`, Go
inserts `rep` before and after every character). -/
def replaceAll (pat rep s : List Char) : List Char :=
  if pat = [] then rep ++ (s.map (fun c => c :: rep)).flatten
  else goFuel pat rep s.length s

/-- Body escaping performed by `startWorker` before invoking the
external transformer: `[[` becomes `<SPEC_START>`, then `]]` becomes
`<SPEC_END>`. -/
def escapeBody (s : List Char) : List Char :=
  replaceAll rbTok endTok (replaceAll lbTok startTok s)

/-- The reverse substitution performed by `startWorker` on the
transformer output: `<SPEC_START>` becomes `[[`, then `<SPEC_END>`
becomes `]]`. -/
def unescapeBody (s : List Char) : List Char :=
  replaceAll endTok rbTok (replaceAll startTok lbTok s)

/-- Artifact stripping performed by `startWriter`:
`strings.Replace(text, "&#xA;", "", -1)`. -/
def stripXA (s : List Char) : List Char := replaceAll xaTok [] s

/-- The helper `find` of `xml.go`: linear search of a slice of strings. -/
def find (slice : List (List Char)) (val : List Char) : Bool :=
  match slice with
  | [] => false
  | p :: rest => if p = val then true else find rest val

/-- `Contributor` sub-block of a revision (struct `Page.Revision.Contributor`). -/
structure Contributor where
  text : List Char
  username : List Char
  id : List Char
deriving DecidableEq

/-- The `text` element of a revision: innerxml body plus the `bytes`
and `space` attributes (struct `Page.Revision.Text`). -/
structure BodyText where
  text : List Char
  bytes : List Char
  space : List Char
deriving DecidableEq

/-- The `redirect` element: chardata plus the `title` attribute
(struct `Page.Redirect`). -/
structure RedirectElem where
  text : List Char
  title : List Char
deriving DecidableEq

/-- The `revision` sub-block (struct `Page.Revision`). -/
structure Revision where
  chardata : List Char
  id : List Char
  parentid : List Char
  timestamp : List Char
  contributor : Contributor
  comment : List Char
  model : List Char
  format : List Char
  text : BodyText
  sha1 : List Char
deriving DecidableEq

/-- One wikimedia page record (struct `Page` of `xml.go`). -/
structure Page where
  text : List Char
  title : List Char
  ns : List Char
  id : List Char
  redirect : RedirectElem
  revision : Revision
deriving DecidableEq

/-- Replace the body (`p.Revision.Text.Text`) of a page, leaving every
other field unchanged; this is the only mutation `startWorker` performs. -/
def setBody (p : Page) (b : List Char) : Page :=
  { p with revision := { p.revision with text := { p.revision.text with text := b } } }

/-- The double-quote character (used in serialized attributes). -/
def dq : Char := Char.ofNat 34

/-- Go `encoding/xml` escaping of one character of chardata or of an
attribute value. -/
def xmlEscChar (c : Char) : List Char :=
  if c = '&' then ("&amp;").toList
  else if c = '<' then ("&lt;").toList
  else if c = '>' then ("&gt;").toList
  else if c = Char.ofNat 39 then ("&#39;").toList
  else if c = dq then ("&#34;").toList
  else if c = Char.ofNat 9 then ("&#x9;").toList
  else if c = Char.ofNat 10 then ("&#xA;").toList
  else if c = Char.ofNat 13 then ("&#xD;").toList
  else [c]

/-- Go `encoding/xml` escaping of a chardata string or attribute value. -/
def xmlEsc (s : List Char) : List Char := (s.map xmlEscChar).flatten

/-- Serialize one element with no attributes: `<name>content</name>`. -/
def elemTag (name content : List Char) : List Char :=
  ('<' :: name) ++ ('>' :: content) ++ ('<' :: '/' :: name) ++ [ '>' ]

/-- The serialized `redirect` element with its `title` attribute. -/
def redirectXml (r : RedirectElem) : List Char :=
  ("<redirect title=").toList ++ (dq :: xmlEsc r.title) ++ (dq :: ('>' :: xmlEsc r.text))
    ++ ("</redirect>").toList

/-- The serialized `contributor` element (compact form). -/
def contributorXml (c : Contributor) : List Char :=
  ("<contributor>").toList ++ xmlEsc c.text
    ++ elemTag (("username").toList) (xmlEsc c.username)
    ++ elemTag (("id").toList) (xmlEsc c.id)
    ++ ("</contributor>").toList

/-- The opening of the serialized `text` element, including its
`bytes` and `space` attributes. -/
def bodyTextOpen (t : BodyText) : List Char :=
  ("<text bytes=").toList ++ (dq :: xmlEsc t.bytes)
    ++ (dq :: (" space=").toList) ++ (dq :: xmlEsc t.space) ++ [ dq, '>' ]

/-- Everything `xml.Marshal` writes for a page before the raw innerxml
body.  The body itself is not consulted. -/
def marshalPre (p : Page) : List Char :=
  ("<page>").toList ++ xmlEsc p.text
    ++ elemTag (("title").toList) (xmlEsc p.title)
    ++ elemTag (("ns").toList) (xmlEsc p.ns)
    ++ elemTag (("id").toList) (xmlEsc p.id)
    ++ redirectXml p.redirect
    ++ ("<revision>").toList ++ xmlEsc p.revision.chardata
    ++ elemTag (("id").toList) (xmlEsc p.revision.id)
    ++ elemTag (("parentid").toList) (xmlEsc p.revision.parentid)
    ++ elemTag (("timestamp").toList) (xmlEsc p.revision.timestamp)
    ++ contributorXml p.revision.contributor
    ++ elemTag (("comment").toList) (xmlEsc p.revision.comment)
    ++ elemTag (("model").toList) (xmlEsc p.revision.model)
    ++ elemTag (("format").toList) (xmlEsc p.revision.format)
    ++ bodyTextOpen p.revision.text

/-- Everything `xml.Marshal` writes for a page after the raw innerxml
body.  The body itself is not consulted. -/
def marshalPost (p : Page) : List Char :=
  ("</text>").toList
    ++ elemTag (("sha1").toList) (xmlEsc p.revision.sha1)
    ++ ("</revision></page>").toList

/-- Model of `xml.Marshal(p)` for the `Page` struct: the compact
serialization, with the `,innerxml` body embedded verbatim. -/
def marshal (p : Page) : List Char :=
  marshalPre p ++ p.revision.text.text ++ marshalPost p

/-- Newline plus indentation at nesting depth 1 for
`xml.MarshalIndent(p, "  ", "    ")`. -/
def nl1 : List Char := ("\n      ").toList

/-- Newline plus indentation at nesting depth 2. -/
def nl2 : List Char := ("\n          ").toList

/-- Newline plus indentation at nesting depth 3. -/
def nl3 : List Char := ("\n              ").toList

/-- The serialized `contributor` element, indented form. -/
def contributorXmlInd (c : Contributor) : List Char :=
  ("<contributor>").toList ++ xmlEsc c.text
    ++ nl3 ++ elemTag (("username").toList) (xmlEsc c.username)
    ++ nl3 ++ elemTag (("id").toList) (xmlEsc c.id)
    ++ nl2 ++ ("</contributor>").toList

/-- Everything `xml.MarshalIndent(p, "  ", "    ")` writes before the
raw innerxml body. -/
def marshalIndentPre (p : Page) : List Char :=
  ("  <page>").toList ++ xmlEsc p.text
    ++ nl1 ++ elemTag (("title").toList) (xmlEsc p.title)
    ++ nl1 ++ elemTag (("ns").toList) (xmlEsc p.ns)
    ++ nl1 ++ elemTag (("id").toList) (xmlEsc p.id)
    ++ nl1 ++ redirectXml p.redirect
    ++ nl1 ++ ("<revision>").toList ++ xmlEsc p.revision.chardata
    ++ nl2 ++ elemTag (("id").toList) (xmlEsc p.revision.id)
    ++ nl2 ++ elemTag (("parentid").toList) (xmlEsc p.revision.parentid)
    ++ nl2 ++ elemTag (("timestamp").toList) (xmlEsc p.revision.timestamp)
    ++ nl2 ++ contributorXmlInd p.revision.contributor
    ++ nl2 ++ elemTag (("comment").toList) (xmlEsc p.revision.comment)
    ++ nl2 ++ elemTag (("model").toList) (xmlEsc p.revision.model)
    ++ nl2 ++ elemTag (("format").toList) (xmlEsc p.revision.format)
    ++ nl2 ++ bodyTextOpen p.revision.text

/-- Everything `xml.MarshalIndent(p, "  ", "    ")` writes after the
raw innerxml body. -/
def marshalIndentPost (p : Page) : List Char :=
  ("</text>").toList
    ++ nl2 ++ elemTag (("sha1").toList) (xmlEsc p.revision.sha1)
    ++ nl1 ++ ("</revision>").toList
    ++ ("\n  </page>").toList

/-- Model of `xml.MarshalIndent(p, "  ", "    ")` for the `Page`
struct: the indented serialization, innerxml body verbatim. -/
def marshalIndent (p : Page) : List Char :=
  marshalIndentPre p ++ p.revision.text.text ++ marshalIndentPost p

/-- The body of `startReader`'s decode loop: for each decoded page,
look its title up in `seen` and skip it when found, otherwise send it
on the `InPage` channel.  Faithful to the source, nothing is ever
appended to `seen`. -/
def readerLoop (seen : List (List Char)) : List Page → List Page
  | [] => []
  | p :: ps => if find seen p.title then readerLoop seen ps else p :: readerLoop seen ps

/-- The sequence of pages `startReader` sends to the worker pool, in
order; the package-level `seen` starts out empty. -/
def readerSends (ps : List Page) : List Page := readerLoop [] ps

/-- `startReader` including the `os.Open` call: when the open fails the
reader panics (`Except.error`), otherwise it emits `readerSends` of the
decoded pages. -/
def startReaderEff (openRes : Option (List Page)) : Except Unit (List Page) :=
  match openRes with
  | none => Except.error ()
  | some ps => Except.ok (readerSends ps)

/-- One iteration of `startWorker`'s loop, with the external
transformer modelled by `tf` (`none` is a failed `CombinedOutput`).
Returns `none` when the record is dropped, `some out` when `out` is
sent on the `OutText` channel. -/
def workerStep (tf : List Char → Option (List Char)) (p : Page) : Option (List Char) :=
  if redirectTok.isPrefixOf p.revision.text.text then
    some (marshal p)
  else
    match tf (escapeBody p.revision.text.text) with
    | none => none
    | some clean => some (marshalIndent (setBody p (unescapeBody clean)))

/-- One iteration of `startWorker`'s loop with the two marshalling
calls as oracles, so that their error branches (`panic(err)`) are
visible: `Except.error` is a panic, `Except.ok none` a dropped record,
`Except.ok (some out)` an emission. -/
def workerStepEff (tf : List Char → Option (List Char))
    (mr mir : Page → Except Unit (List Char)) (p : Page) :
    Except Unit (Option (List Char)) :=
  if redirectTok.isPrefixOf p.revision.text.text then
    match mr p with
    | Except.error e => Except.error e
    | Except.ok out => Except.ok (some out)
  else
    match tf (escapeBody p.revision.text.text) with
    | none => Except.ok none
    | some clean =>
      match mir (setBody p (unescapeBody clean)) with
      | Except.error e => Except.error e
      | Except.ok out => Except.ok (some out)

/-- The multiset of serialized records the worker pool sends on
`OutText` when processing `ps` (listed in `InPage` order; the pool
itself may interleave them arbitrarily). -/
def workerRun (tf : List Char → Option (List Char)) (ps : List Page) : List (List Char) :=
  ps.filterMap (workerStep tf)

/-- The hardcoded mediawiki header written by `startWriter`. -/
def headTok : List Char :=
  ("\n<mediawiki xmlns=\"http://www.mediawiki.org/xml/export-0.10/\" xmlns:xsi=\"http://www.w3.org/2001/XMLSchema-instance\" xsi:schemaLocation=\"http://www.mediawiki.org/xml/export-0.10/ http://www.mediawiki.org/xml/export-0.10.xsd\" version=\"0.10\" xml:lang=\"en\">\n    <sitename>Wikipedia</sitename>\n    <dbname>enwiki</dbname>\n    <base>https://en.wikipedia.org/wiki/Main_Page</base>\n    <generator>MediaWiki 1.35.0-wmf.31</generator>\n    <case>first-letter</case>\n    <namespaces>\n      <namespace key=\"-2\" case=\"first-letter\">Media</namespace>\n      <namespace key=\"-1\" case=\"first-letter\">Special</namespace>\n      <namespace key=\"0\" case=\"first-letter\" />\n      <namespace key=\"1\" case=\"first-letter\">Talk</namespace>\n      <namespace key=\"2\" case=\"first-letter\">User</namespace>\n      <namespace key=\"3\" case=\"first-letter\">User talk</namespace>\n      <namespace key=\"4\" case=\"first-letter\">Wikipedia</namespace>\n      <namespace key=\"5\" case=\"first-letter\">Wikipedia talk</namespace>\n      <namespace key=\"6\" case=\"first-letter\">File</namespace>\n      <namespace key=\"7\" case=\"first-letter\">File talk</namespace>\n      <namespace key=\"8\" case=\"first-letter\">MediaWiki</namespace>\n      <namespace key=\"9\" case=\"first-letter\">MediaWiki talk</namespace>\n      <namespace key=\"10\" case=\"first-letter\">Template</namespace>\n      <namespace key=\"11\" case=\"first-letter\">Template talk</namespace>\n      <namespace key=\"12\" case=\"first-letter\">Help</namespace>\n      <namespace key=\"13\" case=\"first-letter\">Help talk</namespace>\n      <namespace key=\"14\" case=\"first-letter\">Category</namespace>\n      <namespace key=\"15\" case=\"first-letter\">Category talk</namespace>\n      <namespace key=\"100\" case=\"first-letter\">Portal</namespace>\n      <namespace key=\"101\" case=\"first-letter\">Portal talk</namespace>\n      <namespace key=\"108\" case=\"first-letter\">Book</namespace>\n      <namespace key=\"109\" case=\"first-letter\">Book talk</namespace>\n      <namespace key=\"118\" case=\"first-letter\">Draft</namespace>\n      <namespace key=\"119\" case=\"first-letter\">Draft talk</namespace>\n      <namespace key=\"446\" case=\"first-letter\">Education Program</namespace>\n      <namespace key=\"447\" case=\"first-letter\">Education Program talk</namespace>\n      <namespace key=\"710\" case=\"first-letter\">TimedText</namespace>\n      <namespace key=\"711\" case=\"first-letter\">TimedText talk</namespace>\n      <namespace key=\"828\" case=\"first-letter\">Module</namespace>\n      <namespace key=\"829\" case=\"first-letter\">Module talk</namespace>\n      <namespace key=\"2300\" case=\"first-letter\">Gadget</namespace>\n      <namespace key=\"2301\" case=\"first-letter\">Gadget talk</namespace>\n      <namespace key=\"2302\" case=\"case-sensitive\">Gadget definition</namespace>\n      <namespace key=\"2303\" case=\"case-sensitive\">Gadget definition talk</namespace>\n    </namespaces>\n  </siteinfo>\n ").toList

/-- The trailing bytes written by `startWriter` after `OutText` closes. -/
def closeTok : List Char := ("</page>").toList

/-- The loop of `startWriter` over `OutText`, with `f.Write` outcomes
given by the oracle `ok` indexed by write sequence number `n`.  Each
item causes two writes: a newline, then the stripped text.  On success
the final counter and the list of written chunks are returned; a failed
write is the `panic(err)` branch. -/
def writerLoop (ok : Nat → Bool) (n : Nat) :
    List (List Char) → Except Unit (Nat × List (List Char))
  | [] => Except.ok (n, [])
  | t :: rest =>
    if ok n then
      if ok (n + 1) then
        match writerLoop ok (n + 2) rest with
        | Except.error e => Except.error e
        | Except.ok (m, outs) => Except.ok (m, [ '\n' ] :: stripXA t :: outs)
      else Except.error ()
    else Except.error ()

/-- `startWriter` end to end: `os.Create` outcome, header write
(sequence number 0), the item loop, then the trailer write.  Returns
the chunks appended to the output stream. -/
def startWriterEff (createOk : Bool) (ok : Nat → Bool) (items : List (List Char)) :
    Except Unit (List (List Char)) :=
  if createOk then
    if ok 0 then
      match writerLoop ok 1 items with
      | Except.error e => Except.error e
      | Except.ok (m, outs) =>
        if ok m then Except.ok (headTok :: outs ++ [ closeTok ]) else Except.error ()
    else Except.error ()
  else Except.error ()

/-- Program counter of the main goroutine in `Worker.Start` (after the
`go` statements): `0` = running `startReader`, `1` = at `wg.Wait()`,
`2` = `Wait` returned, `3` = `close(OutText)` executed. -/
structure CoordState where
  mainPC : Nat
  workerPC : Nat
  counter : Nat
  inClosed : Bool
  outClosed : Bool
deriving DecidableEq

/-- Scheduling events of the coordinator model (one worker goroutine,
input stream containing no page elements).  `workerPC`: `0` = goroutine
not yet scheduled (before `wg.Add(1)`), `1` = registered and receiving
on `InPage`, `2` = loop exited and `wg.Done()` executed. -/
inductive CoordEv where
  | mainReader
  | mainWait
  | mainClose
  | workerAdd
  | workerExit
deriving DecidableEq

/-- Interleaving semantics of `Worker.Start` with `workerCount = 1` and
an input dump with no pages: each event fires only when enabled
(`mainWait` requires the wait-group counter to be zero, `workerExit`
requires the `InPage` channel to be closed and empty). -/
def coordStep (s : CoordState) : CoordEv → Option CoordState
  | CoordEv.mainReader =>
    if s.mainPC = 0 then some { s with mainPC := 1, inClosed := true } else none
  | CoordEv.mainWait =>
    if s.mainPC = 1 ∧ s.counter = 0 then some { s with mainPC := 2 } else none
  | CoordEv.mainClose =>
    if s.mainPC = 2 then some { s with mainPC := 3, outClosed := true } else none
  | CoordEv.workerAdd =>
    if s.workerPC = 0 then some { s with workerPC := 1, counter := s.counter + 1 } else none
  | CoordEv.workerExit =>
    if s.workerPC = 1 ∧ s.inClosed then
      some { s with workerPC := 2, counter := s.counter - 1 }
    else none

/-- Run a schedule of events from a state; `none` if any event fires
while disabled. -/
def coordExec (s : CoordState) : List CoordEv → Option CoordState
  | [] => some s
  | e :: evs =>
    match coordStep s e with
    | none => none
    | some t => coordExec t evs

/-- The initial state of `Worker.Start`. -/
def coordInit : CoordState :=
  { mainPC := 0, workerPC := 0, counter := 0, inClosed := false, outClosed := false }

/-- Link-body tokens: a body is rendered from literal text segments
interleaved with delimiter tokens.  `lb`/`rb` are the link delimiters
`[[`/`]]`; `st`/`en` are literal occurrences of the sentinel
placeholders in the original text. -/
inductive Tok where
  | lb
  | rb
  | st
  | en
deriving DecidableEq

/-- How a token reads in the original body. -/
def origR : Tok → List Char
  | Tok.lb => lbTok
  | Tok.rb => rbTok
  | Tok.st => startTok
  | Tok.en => endTok

/-- How a token reads after the full escape step of `startWorker`. -/
def escR : Tok → List Char
  | Tok.lb => startTok
  | Tok.rb => endTok
  | Tok.st => startTok
  | Tok.en => endTok

/-- How a token reads after the first escape substitution only. -/
def mid1R : Tok → List Char
  | Tok.lb => startTok
  | Tok.rb => rbTok
  | Tok.st => startTok
  | Tok.en => endTok

/-- How a token reads after the first unescape substitution applied to
the escaped form. -/
def mid2R : Tok → List Char
  | Tok.lb => lbTok
  | Tok.rb => endTok
  | Tok.st => lbTok
  | Tok.en => endTok

/-- How a token reads after the full unescape step. -/
def finR : Tok → List Char
  | Tok.lb => lbTok
  | Tok.rb => rbTok
  | Tok.st => lbTok
  | Tok.en => rbTok

/-- Render a tokenized body: a leading text segment followed by
delimiter/text pairs, with delimiters rendered through `f`. -/
def render (f : Tok → List Char) (t0 : List Char) : List (Tok × List Char) → List Char
  | [] => t0
  | (d, u) :: rest => t0 ++ f d ++ render f u rest

/-- Does `pat` occur as a contiguous substring of `s`?  Computable
companion of `List.IsInfix`. -/
def hasInfix (pat : List Char) : List Char → Bool
  | [] => pat.isEmpty
  | c :: t => pat.isPrefixOf (c :: t) || hasInfix pat t

/-- A text segment is clean when none of the four tokens occurs in it. -/
@[reducible]
def CleanSeg (u : List Char) : Prop :=
  hasInfix lbTok u = false ∧ hasInfix rbTok u = false ∧
    hasInfix startTok u = false ∧ hasInfix endTok u = false

/-- Well-formed tokenization for the escape direction: every text
segment is clean, a text segment followed by `[[` does not end in `[`,
and a text segment followed by `]]` does not end in `]` (so no
delimiter occurrence straddles a segment boundary). -/
@[reducible]
def EscWF (t0 : List Char) : List (Tok × List Char) → Prop
  | [] => CleanSeg t0
  | (d, u) :: rest =>
    CleanSeg t0 ∧
      (d = Tok.lb → t0.getLast? ≠ some '[') ∧
      (d = Tok.rb → t0.getLast? ≠ some ']') ∧
      EscWF u rest

/-- Well-formed tokenization for the unescape direction: every text
segment is free of the two sentinel placeholders. -/
@[reducible]
def UnescWF (t0 : List Char) : List (Tok × List Char) → Prop
  | [] => hasInfix startTok t0 = false ∧ hasInfix endTok t0 = false
  | (_, u) :: rest =>
    (hasInfix startTok t0 = false ∧ hasInfix endTok t0 = false) ∧ UnescWF u rest

/-- Side conditions on the text segments of a tokenized body for one
replacement pass with pattern `pat` over delimiters rendered by `f`:
no text segment contains `pat`, and no occurrence of `pat` can start
inside a text segment and continue into the following delimiter. -/
def TxtOK (pat : List Char) (f : Tok → List Char) (t0 : List Char) :
    List (Tok × List Char) → Prop
  | [] => hasInfix pat t0 = false
  | (d, u) :: rest =>
    hasInfix pat t0 = false ∧
      (∀ k, k < pat.length → 0 < k → pat[k]? = (f d).head? → ¬ pat.take k <:+ t0) ∧
      TxtOK pat f u rest

/-- A page with the given title and body and empty remaining metadata. -/
def mkPage (title body : List Char) : Page :=
  Page.mk [] title [] [] (RedirectElem.mk [] [])
    (Revision.mk [] [] [] [] (Contributor.mk [] [] []) [] [] []
      (BodyText.mk body [] []) [])

/-- First input record of scenario A: title `Dog`, body `Animal.`. -/
def pageDogAnimal : Page := mkPage (("Dog").toList) (("Animal.").toList)

/-- Second input record of scenario A: same title `Dog`, body `Other.`. -/
def pageDogOther : Page := mkPage (("Dog").toList) (("Other.").toList)

/-- A redirect record (scenario B). -/
def pageRedirect : Page := mkPage (("Cat").toList) (("#REDIRECT [[Dog]]").toList)

/-- A plain record whose transformation succeeds. -/
def pageGood : Page := mkPage (("Good").toList) (("Fine.").toList)

/-- A record on which the external transformer fails (scenario D). -/
def pageBroken : Page := mkPage (("Broken").toList) (("Bad body").toList)

/-- A transformer that fails exactly on `pageBroken`'s escaped body. -/
def tfFailBroken : List Char → Option (List Char) :=
  fun s => if s = ("Bad body").toList then none else some s

/-- All fields of `q` other than the body agree with those of `p`;
in particular the checksum (`sha1`) is carried over unchanged. -/
def FramePreserved (p q : Page) : Prop :=
  q.text = p.text ∧ q.title = p.title ∧ q.ns = p.ns ∧ q.id = p.id ∧
    q.redirect = p.redirect ∧
    q.revision.chardata = p.revision.chardata ∧ q.revision.id = p.revision.id ∧
    q.revision.parentid = p.revision.parentid ∧
    q.revision.timestamp = p.revision.timestamp ∧
    q.revision.contributor = p.revision.contributor ∧
    q.revision.comment = p.revision.comment ∧
    q.revision.model = p.revision.model ∧ q.revision.format = p.revision.format ∧
    q.revision.text.bytes = p.revision.text.bytes ∧
    q.revision.text.space = p.revision.text.space ∧
    q.revision.sha1 = p.revision.sha1

/-- Total number of `f.Write` calls `startWriter` performs for a given
item list: the header, two writes per item, and the trailer. -/
def writesCount (items : List (List Char)) : Nat := 2 + 2 * items.length

/-- The schedule in which the main goroutine runs to completion before
the worker goroutine is ever scheduled. -/
def c9BadSchedule : List CoordEv :=
  [CoordEv.mainReader, CoordEv.mainWait, CoordEv.mainClose]

/-- Scenario-C tokenization of the input body `Hello [[World]].`. -/
@[reducible]
def t0C : List Char := ("Hello ").toList

/-- Scenario-C delimiter/text pairs of the input body. -/
@[reducible]
def restC : List (Tok × List Char) :=
  [(Tok.lb, ("World").toList), (Tok.rb, (".").toList)]

/-- Scenario-C leading text segment of the transformer output. -/
@[reducible]
def t0C' : List Char := ("Hi ").toList

/-- Scenario-C transformer: returns `Hi <SPEC_START>World<SPEC_END>.`. -/
def tfC : List Char → Option (List Char) :=
  fun _ => some (("Hi <SPEC_START>World<SPEC_END>.").toList)

/-- Scenario-C input record. -/
def pageC : Page := mkPage (("Hello").toList) (("Hello [[World]].").toList)

/-- A record whose body contains a literal sentinel placeholder. -/
def pageS : Page := mkPage (("S").toList) (("A<SPEC_START>B").toList)

lemma goFuel_congr (pat rep : List Char) :
    ∀ f s, s.length ≤ f → goFuel pat rep f s = goFuel pat rep s.length s := by
  intro f
  induction f using Nat.strong_induction_on with
  | _ f ih =>
    intro s hs
    cases s with
    | nil => cases f <;> rfl
    | cons c s =>
      cases f with
      | zero => simp at hs
      | succ f =>
        have hsf : s.length ≤ f := by simpa using hs
        simp only [List.length_cons, goFuel]
        by_cases hpre : pat.isPrefixOf (c :: s) = true
        · rw [if_pos hpre, if_pos hpre]
          have hd : (List.drop (pat.length - 1) s).length ≤ s.length := by
            simp [List.length_drop]
          rw [ih f (Nat.lt_succ_self f) _ (Nat.le_trans hd hsf),
            ih s.length (Nat.lt_succ_of_le hsf) _ hd]
        · rw [if_neg hpre, if_neg hpre, ih f (Nat.lt_succ_self f) s hsf]

lemma replaceAll_eq_nil (pat rep : List Char) (hp : pat ≠ []) : replaceAll pat rep [] = [] := by
  simp only [replaceAll, hp, if_false]
  rfl

lemma replaceAll_cons_pos (pat rep : List Char) (c : Char) (s : List Char) (hp : pat ≠ [])
    (h : pat.isPrefixOf (c :: s) = true) :
    replaceAll pat rep (c :: s) = rep ++ replaceAll pat rep (List.drop (pat.length - 1) s) := by
  simp only [replaceAll, hp, if_false, List.length_cons]
  simp only [goFuel, h, if_true]
  rw [goFuel_congr pat rep s.length _ (by simp [List.length_drop])]

lemma replaceAll_cons_neg (pat rep : List Char) (c : Char) (s : List Char) (hp : pat ≠ [])
    (h : pat.isPrefixOf (c :: s) = false) :
    replaceAll pat rep (c :: s) = c :: replaceAll pat rep s := by
  simp only [replaceAll, hp, if_false, List.length_cons]
  simp only [goFuel, h, Bool.false_eq_true, if_false]

lemma replaceAll_pat_front (pat rep s : List Char) (hp : pat ≠ []) :
    replaceAll pat rep (pat ++ s) = rep ++ replaceAll pat rep s := by
  cases pat with
  | nil => exact absurd rfl hp
  | cons c pat' =>
    have hpre : (c :: pat').isPrefixOf (c :: (pat' ++ s)) = true :=
      List.isPrefixOf_iff_prefix.mpr ⟨s, rfl⟩
    rw [List.cons_append, replaceAll_cons_pos (c :: pat') rep c (pat' ++ s) hp hpre]
    simp only [List.length_cons, Nat.add_sub_cancel]
    rw [List.drop_left]

lemma hasInfix_iff (pat s : List Char) : hasInfix pat s = true ↔ pat <:+: s := by
  induction s with
  | nil =>
    simp only [hasInfix, List.isEmpty_iff]
    constructor
    · intro h; exact h ▸ List.infix_refl []
    · intro h; exact List.eq_nil_of_infix_nil h
  | cons c t ih =>
    simp only [hasInfix, Bool.or_eq_true, ih]
    constructor
    · rintro (h | h)
      · rcases List.isPrefixOf_iff_prefix.mp h with ⟨w, hw⟩
        exact ⟨[], w, by simp [hw]⟩
      · exact List.infix_cons h
    · rintro ⟨u, v, huv⟩
      match u with
      | [] =>
        left
        exact List.isPrefixOf_iff_prefix.mpr ⟨v, by simpa using huv⟩
      | a :: u' =>
        right
        have h2 : a = c ∧ u' ++ (pat ++ v) = t := by simpa using huv
        exact ⟨u', v, by simp [h2.2]⟩

lemma hasInfix_false_iff (pat s : List Char) : hasInfix pat s = false ↔ ¬ pat <:+: s := by
  rw [← hasInfix_iff]
  simp

lemma replaceAll_no_occur (pat rep s : List Char) (h : hasInfix pat s = false) :
    replaceAll pat rep s = s := by
  induction s with
  | nil =>
    have hp : pat ≠ [] := by
      intro he
      rw [he] at h
      simp [hasInfix] at h
    exact replaceAll_eq_nil pat rep hp
  | cons c t ih =>
    simp only [hasInfix, Bool.or_eq_false_iff] at h
    have hp : pat ≠ [] := by
      intro he
      rw [he] at h
      simp [List.isPrefixOf] at h
    rw [replaceAll_cons_neg pat rep c t hp h.1, ih h.2]

lemma prefix_of_append_of_le (pat t s : List Char) (h : pat <+: t ++ s)
    (hl : pat.length ≤ t.length) : pat <+: t := by
  have he : pat = (t ++ s).take pat.length := List.prefix_iff_eq_take.mp h
  rw [List.take_append_eq_append_take, Nat.sub_eq_zero_of_le hl, List.take_zero,
    List.append_nil] at he
  exact he ▸ List.take_prefix _ _

lemma suffix_cons_of_suffix (a : Char) (u t : List Char) (h : u <:+ t) : u <:+ a :: t := by
  rcases h with ⟨w, hw⟩
  exact ⟨a :: w, by simp [hw]⟩

lemma replaceAll_append (pat rep : List Char) :
    ∀ t s : List Char, hasInfix pat t = false →
      (∀ k, k < pat.length → 0 < k → ¬ (pat.take k <:+ t ∧ pat.drop k <+: s)) →
      replaceAll pat rep (t ++ s) = t ++ replaceAll pat rep s := by
  intro t
  induction t with
  | nil => intro s _ _; simp
  | cons a t' ih =>
    intro s hinf hcross
    simp only [hasInfix, Bool.or_eq_false_iff] at hinf
    have hp : pat ≠ [] := by
      intro he
      rw [he] at hinf
      simp [List.isPrefixOf] at hinf
    have hnopre : pat.isPrefixOf (a :: t' ++ s) = false := by
      cases hb : pat.isPrefixOf (a :: t' ++ s) with
      | false => rfl
      | true =>
        exfalso
        have hpre : pat <+: (a :: t') ++ s := List.isPrefixOf_iff_prefix.mp hb
        by_cases hlen : pat.length ≤ (a :: t').length
        · have hpt : pat <+: a :: t' := prefix_of_append_of_le pat (a :: t') s hpre hlen
          rw [← List.isPrefixOf_iff_prefix] at hpt
          rw [hinf.1] at hpt
          exact Bool.false_ne_true hpt
        · push_neg at hlen
          have he : pat = (a :: t') ++ s.take (pat.length - (a :: t').length) := by
            have h1 : pat = ((a :: t') ++ s).take pat.length := List.prefix_iff_eq_take.mp hpre
            rw [List.take_append_eq_append_take,
              List.take_of_length_le (Nat.le_of_lt hlen)] at h1
            exact h1
          refine hcross (a :: t').length hlen (by simp) ⟨?tk, ?dr⟩
          case tk =>
            rw [he, List.take_left]
          case dr =>
            rw [he, List.drop_left]
            exact List.take_prefix _ _
    rw [show (a :: t') ++ s = a :: (t' ++ s) from rfl] at hnopre ⊢
    rw [replaceAll_cons_neg pat rep a (t' ++ s) hp hnopre]
    rw [ih s hinf.2 ?hcr, List.cons_append]
    case hcr =>
      intro k hk hk0 hks
      exact hcross k hk hk0 ⟨suffix_cons_of_suffix a _ t' hks.1, hks.2⟩

lemma singleton_suffix_iff (a : Char) (l : List Char) : [a] <:+ l ↔ l.getLast? = some a := by
  constructor
  · rintro ⟨w, hw⟩
    rw [← hw]
    exact List.getLast?_concat w
  · intro h
    have hne : l ≠ [] := by
      rintro rfl
      simp at h
    refine ⟨l.dropLast, ?_⟩
    have hg : l.getLast hne = a := by
      rw [List.getLast?_eq_getLast l hne] at h
      exact Option.some_injective _ h
    rw [← hg]
    exact List.dropLast_append_getLast hne

lemma replaceAll_render_step (pat rep : List Char) (f fN : Tok → List Char)
    (hdelim : ∀ d, (f d = pat ∧ fN d = rep) ∨
      (fN d = f d ∧ hasInfix pat (f d) = false ∧
        ∀ k, k < pat.length → 0 < k → ¬ pat.take k <:+ f d))
    (hne : ∀ d, f d ≠ []) :
    ∀ t0 rest, TxtOK pat f t0 rest →
      replaceAll pat rep (render f t0 rest) = render fN t0 rest := by
  intro t0 rest
  induction rest generalizing t0 with
  | nil => intro h; exact replaceAll_no_occur pat rep t0 h
  | cons du rest ih =>
    obtain ⟨d, u⟩ := du
    rintro ⟨h0, hcr, hrest⟩
    simp only [render]
    rw [List.append_assoc,
      replaceAll_append pat rep t0 (f d ++ render f u rest) h0 ?cross]
    case cross =>
      rintro k hk hk0 ⟨h1, h2⟩
      cases hfd : f d with
      | nil => exact hne d hfd
      | cons c fd =>
        rw [hfd] at h2
        rw [List.cons_append, List.drop_eq_getElem_cons hk] at h2
        have hc := (List.cons_prefix_cons.mp h2).1
        refine hcr k hk hk0 ?_ h1
        rw [hfd, List.head?_cons, List.getElem?_eq_getElem hk, hc]
    rcases hdelim d with ⟨hfd, hfNd⟩ | ⟨hfNd, hinf, hsuf⟩
    · have hp : pat ≠ [] := hfd ▸ hne d
      rw [hfd, replaceAll_pat_front pat rep _ hp, ih u hrest, hfNd, List.append_assoc]
    · rw [replaceAll_append pat rep (f d) (render f u rest) hinf ?cross2]
      case cross2 =>
        rintro k hk hk0 ⟨h1, _⟩
        exact hsuf k hk hk0 h1
      rw [ih u hrest, hfNd, List.append_assoc]

lemma escWF_txtOK_lb (t0 : List Char) (rest : List (Tok × List Char)) :
    EscWF t0 rest → TxtOK lbTok origR t0 rest := by
  induction rest generalizing t0 with
  | nil => intro h; exact h.1
  | cons du rest ih =>
    obtain ⟨d, u⟩ := du
    rintro ⟨hc, hlb, _, hrest⟩
    refine ⟨hc.1, ?_, ih u hrest⟩
    intro k hk hk0 hhead
    have hk1 : k = 1 := by
      have h2 : k < 2 := by simpa [lbTok] using hk
      omega
    subst hk1
    cases d with
    | lb =>
      rw [show lbTok.take 1 = [ '[' ] from rfl, singleton_suffix_iff]
      exact hlb rfl
    | rb => exact absurd hhead (by decide)
    | st => exact absurd hhead (by decide)
    | en => exact absurd hhead (by decide)

lemma escWF_txtOK_rb (t0 : List Char) (rest : List (Tok × List Char)) :
    EscWF t0 rest → TxtOK rbTok mid1R t0 rest := by
  induction rest generalizing t0 with
  | nil => intro h; exact h.2.1
  | cons du rest ih =>
    obtain ⟨d, u⟩ := du
    rintro ⟨hc, _, hrb, hrest⟩
    refine ⟨hc.2.1, ?_, ih u hrest⟩
    intro k hk hk0 hhead
    have hk1 : k = 1 := by
      have h2 : k < 2 := by simpa [rbTok] using hk
      omega
    subst hk1
    cases d with
    | rb =>
      rw [show rbTok.take 1 = [ ']' ] from rfl, singleton_suffix_iff]
      exact hrb rfl
    | lb => exact absurd hhead (by decide)
    | st => exact absurd hhead (by decide)
    | en => exact absurd hhead (by decide)

lemma unescWF_txtOK_start (t0 : List Char) (rest : List (Tok × List Char)) :
    UnescWF t0 rest → TxtOK startTok escR t0 rest := by
  induction rest generalizing t0 with
  | nil => intro h; exact h.1
  | cons du rest ih =>
    obtain ⟨d, u⟩ := du
    rintro ⟨hc, hrest⟩
    refine ⟨hc.1, ?_, ih u hrest⟩
    intro k hk hk0 hhead
    exfalso
    have hlt : k < 12 := by simpa [startTok] using hk
    have hnot : ∀ j, j < 12 → 0 < j → ¬ startTok[j]? = some '<' := by decide
    refine hnot k hlt hk0 ?_
    cases d with
    | lb => exact hhead
    | rb => rw [hhead]; rfl
    | st => exact hhead
    | en => rw [hhead]; rfl

lemma unescWF_txtOK_end (t0 : List Char) (rest : List (Tok × List Char)) :
    UnescWF t0 rest → TxtOK endTok mid2R t0 rest := by
  induction rest generalizing t0 with
  | nil => intro h; exact h.2
  | cons du rest ih =>
    obtain ⟨d, u⟩ := du
    rintro ⟨hc, hrest⟩
    refine ⟨hc.2, ?_, ih u hrest⟩
    intro k hk hk0 hhead
    exfalso
    have hlt : k < 10 := by simpa [endTok] using hk
    have hnot : ∀ j, j < 10 → 0 < j →
        ¬ (endTok[j]? = some '[' ∨ endTok[j]? = some '<') := by decide
    refine hnot k hlt hk0 ?_
    cases d with
    | lb => left; exact hhead
    | rb => right; rw [hhead]; rfl
    | st => left; exact hhead
    | en => right; rw [hhead]; rfl

lemma escape_render (t0 : List Char) (rest : List (Tok × List Char)) (h : EscWF t0 rest) :
    escapeBody (render origR t0 rest) = render escR t0 rest := by
  unfold escapeBody
  rw [replaceAll_render_step lbTok startTok origR mid1R ?hd1 ?hn1 t0 rest
    (escWF_txtOK_lb t0 rest h)]
  case hd1 =>
    intro d
    cases d with
    | lb => exact Or.inl ⟨rfl, rfl⟩
    | rb => exact Or.inr ⟨rfl, by decide, by decide⟩
    | st => exact Or.inr ⟨rfl, by decide, by decide⟩
    | en => exact Or.inr ⟨rfl, by decide, by decide⟩
  case hn1 => intro d; cases d <;> decide
  rw [replaceAll_render_step rbTok endTok mid1R escR ?hd2 ?hn2 t0 rest
    (escWF_txtOK_rb t0 rest h)]
  case hd2 =>
    intro d
    cases d with
    | rb => exact Or.inl ⟨rfl, rfl⟩
    | lb => exact Or.inr ⟨rfl, by decide, by decide⟩
    | st => exact Or.inr ⟨rfl, by decide, by decide⟩
    | en => exact Or.inr ⟨rfl, by decide, by decide⟩
  case hn2 => intro d; cases d <;> decide

lemma unescape_render (t0 : List Char) (rest : List (Tok × List Char)) (h : UnescWF t0 rest) :
    unescapeBody (render escR t0 rest) = render finR t0 rest := by
  unfold unescapeBody
  rw [replaceAll_render_step startTok lbTok escR mid2R ?hd1 ?hn1 t0 rest
    (unescWF_txtOK_start t0 rest h)]
  case hd1 =>
    intro d
    cases d with
    | lb => exact Or.inl ⟨rfl, rfl⟩
    | st => exact Or.inl ⟨rfl, rfl⟩
    | rb => exact Or.inr ⟨rfl, by decide, by decide⟩
    | en => exact Or.inr ⟨rfl, by decide, by decide⟩
  case hn1 => intro d; cases d <;> decide
  rw [replaceAll_render_step endTok rbTok mid2R finR ?hd2 ?hn2 t0 rest
    (unescWF_txtOK_end t0 rest h)]
  case hd2 =>
    intro d
    cases d with
    | rb => exact Or.inl ⟨rfl, rfl⟩
    | en => exact Or.inl ⟨rfl, rfl⟩
    | lb => exact Or.inr ⟨rfl, by decide, by decide⟩
    | st => exact Or.inr ⟨rfl, by decide, by decide⟩
  case hn2 => intro d; cases d <;> decide

lemma render_congr (f g : Tok → List Char) (t0 : List Char) (rest : List (Tok × List Char))
    (h : ∀ d ∈ rest.map Prod.fst, f d = g d) : render f t0 rest = render g t0 rest := by
  induction rest generalizing t0 with
  | nil => rfl
  | cons du rest ih =>
    obtain ⟨d, u⟩ := du
    simp only [render]
    rw [h d (by simp), ih u (fun d hd => h d (by simp [hd]))]

lemma render_fin_le (t0 : List Char) (rest : List (Tok × List Char)) :
    (render finR t0 rest).length ≤ (render origR t0 rest).length := by
  induction rest generalizing t0 with
  | nil => exact Nat.le_refl _
  | cons du rest ih =>
    obtain ⟨d, u⟩ := du
    simp only [render, List.length_append]
    have hd : (finR d).length ≤ (origR d).length := by cases d <;> decide
    have := ih u
    omega

lemma render_fin_lt (t0 : List Char) (rest : List (Tok × List Char))
    (h : Tok.st ∈ rest.map Prod.fst ∨ Tok.en ∈ rest.map Prod.fst) :
    (render finR t0 rest).length < (render origR t0 rest).length := by
  induction rest generalizing t0 with
  | nil => simp at h
  | cons du rest ih =>
    obtain ⟨d, u⟩ := du
    simp only [render, List.length_append]
    have hle : (finR d).length ≤ (origR d).length := by cases d <;> decide
    have hle2 := render_fin_le u rest
    by_cases hd : d = Tok.st ∨ d = Tok.en
    · have hstrict : (finR d).length < (origR d).length := by
        rcases hd with rfl | rfl <;> decide
      omega
    · have hmem : Tok.st ∈ rest.map Prod.fst ∨ Tok.en ∈ rest.map Prod.fst := by
        push_neg at hd
        rcases h with h | h <;> simp only [List.map_cons, List.mem_cons] at h
        · rcases h with h | h
          · exact absurd h.symm hd.1
          · exact Or.inl h
        · rcases h with h | h
          · exact absurd h.symm hd.2
          · exact Or.inr h
      have := ih u hmem
      omega

lemma escWF_unescWF (t0 : List Char) (rest : List (Tok × List Char)) :
    EscWF t0 rest → UnescWF t0 rest := by
  induction rest generalizing t0 with
  | nil => intro h; exact ⟨h.2.2.1, h.2.2.2⟩
  | cons du rest ih =>
    obtain ⟨d, u⟩ := du
    rintro ⟨hc, _, _, hrest⟩
    exact ⟨⟨hc.2.2.1, hc.2.2.2⟩, ih u hrest⟩

lemma writerLoop_counter (ok : Nat → Bool) :
    ∀ items n m outs, writerLoop ok n items = Except.ok (m, outs) →
      m = n + 2 * items.length := by
  intro items
  induction items with
  | nil =>
    intro n m outs h
    simp only [writerLoop] at h
    injection h with h
    injection h with h1 h2
    simp [← h1]
  | cons t rest ih =>
    intro n m outs h
    simp only [writerLoop] at h
    by_cases h0 : ok n = true
    · rw [if_pos h0] at h
      by_cases h1 : ok (n + 1) = true
      · rw [if_pos h1] at h
        cases hrec : writerLoop ok (n + 2) rest with
        | error e => rw [hrec] at h; simp at h
        | ok p =>
          obtain ⟨m', outs'⟩ := p
          rw [hrec] at h
          simp only [] at h
          injection h with h
          injection h with h1 h2
          have hm := ih (n + 2) m' outs' hrec
          simp only [List.length_cons]
          omega
      · rw [if_neg h1] at h; simp at h
    · rw [if_neg h0] at h; simp at h

lemma writerLoop_error (ok : Nat → Bool) :
    ∀ items n i, n ≤ i → i < n + 2 * items.length → ok i = false →
      writerLoop ok n items = Except.error () := by
  intro items
  induction items with
  | nil =>
    intro n i hni hlt _
    simp at hlt
    omega
  | cons t rest ih =>
    intro n i hni hlt hok
    simp only [writerLoop]
    by_cases h0 : ok n = true
    · rw [if_pos h0]
      by_cases h1 : ok (n + 1) = true
      · rw [if_pos h1]
        have hne0 : i ≠ n := by
          intro he
          rw [← he, hok] at h0
          exact Bool.false_ne_true h0
        have hne1 : i ≠ n + 1 := by
          intro he
          rw [← he, hok] at h1
          exact Bool.false_ne_true h1
        have hge : n + 2 ≤ i := by omega
        have hlt2 : i < n + 2 + 2 * rest.length := by
          simp only [List.length_cons] at hlt
          omega
        rw [ih (n + 2) i hge hlt2 hok]
      · rw [if_neg h1]
    · rw [if_neg h0]

lemma writerLoop_all_ok (ok : Nat → Bool) (h : ∀ n, ok n = true) :
    ∀ items n, writerLoop ok n items =
      Except.ok (n + 2 * items.length,
        (items.map (fun t => [ [ '\n' ], stripXA t ])).flatten) := by
  intro items
  induction items with
  | nil => intro n; simp [writerLoop]
  | cons t rest ih =>
    intro n
    simp only [writerLoop, h n, h (n + 1), if_pos, ih (n + 2), List.map_cons,
      List.flatten_cons, List.length_cons]
    refine congrArg Except.ok ?_
    simp only [Prod.mk.injEq]
    exact ⟨by omega, by simp⟩

lemma startWriterEff_write_fail (ok : Nat → Bool) (items : List (List Char)) (i : Nat)
    (hi : i < writesCount items) (hok : ok i = false) :
    startWriterEff true ok items = Except.error () := by
  simp only [startWriterEff, if_pos]
  by_cases h0 : ok 0 = true
  · rw [if_pos h0]
    by_cases hcase : i < 1 + 2 * items.length
    · have h1 : 1 ≤ i := by
        rcases Nat.eq_zero_or_pos i with rfl | hp
        · rw [hok] at h0; exact absurd h0 Bool.false_ne_true
        · exact hp
      rw [writerLoop_error ok items 1 i h1 (by omega) hok]
    · have hieq : i = 1 + 2 * items.length := by
        simp only [writesCount] at hi
        omega
      cases hrec : writerLoop ok 1 items with
      | error e => cases e; rfl
      | ok p =>
        obtain ⟨m, outs⟩ := p
        have hm : m = 1 + 2 * items.length := by
          simpa using writerLoop_counter ok items 1 m outs hrec
        have hokm : ok m = false := by rw [hm, ← hieq]; exact hok
        simp [hokm]
  · rw [if_neg h0]

/-- C1: the deduplication gate never drops anything.  The package-level
`seen` slice is searched by `startReader` but no title is ever appended
to it, so `find(seen, p.Title)` is always a search of the empty slice
and every decoded page — duplicates included — is sent to the worker
pool.  On scenario A's input (two records titled `Dog`) both records
pass the gate, contradicting the claim that the second is dropped. -/
theorem c1_reader_never_drops :
    (∀ ps : List Page, readerSends ps = ps) ∧
      pageDogAnimal.title = pageDogOther.title ∧
      readerSends [pageDogAnimal, pageDogOther] = [pageDogAnimal, pageDogOther] := by
  have hgen : ∀ ps : List Page, readerSends ps = ps := by
    intro ps
    induction ps with
    | nil => rfl
    | cons p ps ih =>
      simp only [readerSends, readerLoop] at ih ⊢
      simp [find, ih]
  exact ⟨hgen, rfl, hgen _⟩

/-- C2: when the body starts with `#REDIRECT`, the worker emits
`xml.Marshal` of the unmodified record, the result does not depend on
the transformer (it is never invoked), and the serialized record
embeds the body verbatim (innerxml), hence byte-identical. -/
theorem c2_redirect_short_circuit (tf : List Char → Option (List Char)) (p : Page)
    (h : redirectTok.isPrefixOf p.revision.text.text = true) :
    workerStep tf p = some (marshal p) ∧
      (∀ tf' : List Char → Option (List Char), workerStep tf' p = workerStep tf p) ∧
      marshal p = marshalPre p ++ p.revision.text.text ++ marshalPost p := by
  refine ⟨?_, ?_, rfl⟩
  · simp [workerStep, h]
  · intro tf'
    simp [workerStep, h]

/-- C2 witness: scenario B's redirect record is emitted as-is. -/
theorem c2_witness :
    redirectTok.isPrefixOf pageRedirect.revision.text.text = true ∧
      workerStep (fun _ => none) pageRedirect = some (marshal pageRedirect) :=
  ⟨by decide, (c2_redirect_short_circuit (fun _ => none) pageRedirect (by decide)).1⟩

/-- C4: a record whose transformer invocation fails is dropped
(`workerStep` yields `none`), and the pool's output for any surrounding
records is exactly what it would be without the failing record: no
propagation, no retry, no halt. -/
theorem c4_failure_isolation (tf : List Char → Option (List Char)) (b : Page)
    (ps1 ps2 : List Page)
    (hb : redirectTok.isPrefixOf b.revision.text.text = false)
    (hf : tf (escapeBody b.revision.text.text) = none) :
    workerStep tf b = none ∧
      workerRun tf (ps1 ++ b :: ps2) = workerRun tf ps1 ++ workerRun tf ps2 := by
  have hstep : workerStep tf b = none := by
    simp [workerStep, hb, hf]
  refine ⟨hstep, ?_⟩
  simp [workerRun, List.filterMap_append, List.filterMap_cons, hstep]

/-- C4 witness: scenario D, with one good record before and one after
the failing record. -/
theorem c4_witness :
    workerStep tfFailBroken pageBroken = none ∧
      workerRun tfFailBroken ([pageGood] ++ pageBroken :: [pageRedirect]) =
        workerRun tfFailBroken [pageGood] ++ workerRun tfFailBroken [pageRedirect] :=
  c4_failure_isolation tfFailBroken pageBroken [pageGood] [pageRedirect]
    (by decide) (by decide)

/-- C5: every record a worker emits is the serialization of a page all
of whose fields other than the body agree with the decoded input
record; only the body is rewritten (at most once), and the `sha1`
checksum is carried over unchanged. -/
theorem c5_frame_preservation (tf : List Char → Option (List Char)) (p : Page)
    (h : (workerStep tf p).isSome = true) :
    ∃ q : Page,
      (workerStep tf p = some (marshal q) ∨ workerStep tf p = some (marshalIndent q)) ∧
      FramePreserved p q := by
  by_cases hr : redirectTok.isPrefixOf p.revision.text.text = true
  · refine ⟨p, Or.inl ?_, ?_⟩
    · simp [workerStep, hr]
    · exact ⟨rfl, rfl, rfl, rfl, rfl, rfl, rfl, rfl, rfl, rfl, rfl, rfl, rfl, rfl, rfl, rfl⟩
  · have hr2 : redirectTok.isPrefixOf p.revision.text.text = false := by
      cases hb : redirectTok.isPrefixOf p.revision.text.text with
      | false => rfl
      | true => exact absurd hb hr
    cases htf : tf (escapeBody p.revision.text.text) with
    | none =>
      exfalso
      simp [workerStep, hr2, htf] at h
    | some clean =>
      refine ⟨setBody p (unescapeBody clean), Or.inr ?_, ?_⟩
      · simp [workerStep, hr2, htf]
      · exact ⟨rfl, rfl, rfl, rfl, rfl, rfl, rfl, rfl, rfl, rfl, rfl, rfl, rfl, rfl, rfl, rfl⟩

/-- C5 witness: the redirect record is emitted with every non-body
field (checksum included) preserved. -/
theorem c5_witness :
    ∃ q : Page,
      (workerStep (fun _ => none) pageRedirect = some (marshal q) ∨
        workerStep (fun _ => none) pageRedirect = some (marshalIndent q)) ∧
      FramePreserved pageRedirect q :=
  c5_frame_preservation (fun _ => none) pageRedirect (by decide)

/-- C6: each fatal condition aborts (panics) immediately: a failed
`os.Open` in the reader, a failed `os.Create` in the writer, any failed
`f.Write` in the writer, and a failed marshalling call in the worker
(on either branch). -/
theorem c6_fatal_errors_abort :
    (startReaderEff none = Except.error ()) ∧
    (∀ (ok : Nat → Bool) (items : List (List Char)),
      startWriterEff false ok items = Except.error ()) ∧
    (∀ (ok : Nat → Bool) (items : List (List Char)) (i : Nat),
      i < writesCount items → ok i = false →
      startWriterEff true ok items = Except.error ()) ∧
    (∀ (tf : List Char → Option (List Char)) (mr mir : Page → Except Unit (List Char))
      (p : Page),
      redirectTok.isPrefixOf p.revision.text.text = true →
      mr p = Except.error () →
      workerStepEff tf mr mir p = Except.error ()) ∧
    (∀ (tf : List Char → Option (List Char)) (mr mir : Page → Except Unit (List Char))
      (p : Page) (clean : List Char),
      redirectTok.isPrefixOf p.revision.text.text = false →
      tf (escapeBody p.revision.text.text) = some clean →
      mir (setBody p (unescapeBody clean)) = Except.error () →
      workerStepEff tf mr mir p = Except.error ()) := by
  refine ⟨rfl, fun ok items => rfl,
    fun ok items i hi hok => startWriterEff_write_fail ok items i hi hok, ?_, ?_⟩
  · intro tf mr mir p hred herr
    simp [workerStepEff, hred, herr]
  · intro tf mr mir p clean hred htf herr
    simp [workerStepEff, hred, htf, herr]

/-- C6 witness: concrete instances of all four fatal conditions. -/
theorem c6_witness :
    startReaderEff none = Except.error () ∧
    startWriterEff false (fun _ => true) [] = Except.error () ∧
    startWriterEff true (fun n => n != 1) [("a").toList] = Except.error () ∧
    workerStepEff (fun _ => none) (fun _ => Except.error ()) (fun _ => Except.error ())
      pageRedirect = Except.error () ∧
    workerStepEff (fun s => some s) (fun _ => Except.ok []) (fun _ => Except.error ())
      pageGood = Except.error () :=
  ⟨c6_fatal_errors_abort.1,
   c6_fatal_errors_abort.2.1 (fun _ => true) [],
   c6_fatal_errors_abort.2.2.1 (fun n => n != 1) [("a").toList] 1 (by decide) (by decide),
   c6_fatal_errors_abort.2.2.2.1 (fun _ => none) (fun _ => Except.error ())
     (fun _ => Except.error ()) pageRedirect (by decide) rfl,
   c6_fatal_errors_abort.2.2.2.2 (fun s => some s) (fun _ => Except.ok [])
     (fun _ => Except.error ()) pageGood (escapeBody pageGood.revision.text.text)
     (by decide) rfl rfl⟩

/-- C7 counterexample: a surviving redirect record is emitted through
plain `xml.Marshal`, whose output differs from the indented
`xml.MarshalIndent` output and contains no newline at all, so it is
not re-serialized with indentation. -/
theorem c7_counterexample :
    workerStep (fun s => some s) pageRedirect = some (marshal pageRedirect) ∧
      marshal pageRedirect ≠ marshalIndent pageRedirect ∧
      '\n' ∉ marshal pageRedirect ∧ '\n' ∈ marshalIndent pageRedirect := by
  refine ⟨?_, by decide, by decide, by decide⟩
  simp [workerStep, (by decide : redirectTok.isPrefixOf pageRedirect.revision.text.text = true)]

/-- C7 amended: surviving non-redirect records are re-serialized with
indentation (`xml.MarshalIndent`); surviving redirect records are
serialized without indentation (plain `xml.Marshal`). -/
theorem c7_indent_only_non_redirect (tf : List Char → Option (List Char)) (p : Page) :
    (redirectTok.isPrefixOf p.revision.text.text = true →
      workerStep tf p = some (marshal p)) ∧
    (∀ clean : List Char, redirectTok.isPrefixOf p.revision.text.text = false →
      tf (escapeBody p.revision.text.text) = some clean →
      workerStep tf p = some (marshalIndent (setBody p (unescapeBody clean)))) := by
  constructor
  · intro h
    simp [workerStep, h]
  · intro clean h htf
    simp [workerStep, h, htf]

/-- C7 witness: both branches at concrete records. -/
theorem c7_witness :
    workerStep (fun s => some s) pageRedirect = some (marshal pageRedirect) ∧
      workerStep (fun s => some s) pageGood =
        some (marshalIndent (setBody pageGood
          (unescapeBody (escapeBody pageGood.revision.text.text)))) :=
  ⟨(c7_indent_only_non_redirect (fun s => some s) pageRedirect).1 (by decide),
   (c7_indent_only_non_redirect (fun s => some s) pageGood).2
     (escapeBody pageGood.revision.text.text) (by decide) rfl⟩

/-- C8: when every write succeeds, the writer appends the header and
then, for each received item in order, a newline write followed by the
item's bytes with every `&#xA;` occurrence removed
(`strings.Replace(text, "&#xA;", "", -1)`), and finally the trailer. -/
theorem c8_writer_strip_and_newline (ok : Nat → Bool) (items : List (List Char))
    (h : ∀ n, ok n = true) :
    startWriterEff true ok items =
      Except.ok (headTok ::
        ((items.map (fun t => [ [ '\n' ], stripXA t ])).flatten ++ [ closeTok ])) := by
  unfold startWriterEff
  rw [if_pos rfl, if_pos (h 0), writerLoop_all_ok ok h items 1]
  simp [h (1 + 2 * items.length)]

/-- C8 witness: one item containing the artifact token. -/
theorem c8_witness :
    startWriterEff true (fun _ => true) [("a&#xA;b").toList] =
      Except.ok (headTok ::
        (([("a&#xA;b").toList].map (fun t => [ [ '\n' ], stripXA t ])).flatten
          ++ [ closeTok ])) ∧
      stripXA (("a&#xA;b").toList) = ("ab").toList :=
  ⟨c8_writer_strip_and_newline (fun _ => true) [("a&#xA;b").toList] (fun _ => rfl),
   by decide⟩

/-- C9: a schedule refuting "the result queue is closed only after
every worker has exited".  Because `wg.Add(1)` runs inside the worker
goroutine, the main goroutine can run `startReader`, pass `wg.Wait()`
(counter still zero) and execute `close(w.OutText)` before the worker
goroutine is ever scheduled: in the reached state the output queue is
closed while the worker has not exited. -/
theorem c9_close_races_worker :
    coordExec coordInit c9BadSchedule = some (CoordState.mk 3 0 0 true true) ∧
      (CoordState.mk 3 0 0 true true).outClosed = true ∧
      (CoordState.mk 3 0 0 true true).workerPC ≠ 2 := by
  exact ⟨by decide, rfl, by decide⟩

/-- C3: for a non-redirect record whose body is a well-formed
tokenization into text segments and link delimiters, the worker's
escape step rewrites exactly the delimiters to the sentinel
placeholders; if the transformer passes the sentinels through unchanged
(its output is a rendering with the same delimiter skeleton and
sentinel-free text segments), the reverse substitution restores every
delimiter, so the emitted body is the transformer's text with each
original link-delimiter occurrence present and correctly delimited. -/
theorem c3_placeholder_round_trip (tf : List Char → Option (List Char)) (p : Page)
    (t0 t0' : List Char) (rest rest' : List (Tok × List Char))
    (hbody : p.revision.text.text = render origR t0 rest)
    (hred : redirectTok.isPrefixOf p.revision.text.text = false)
    (hwf : EscWF t0 rest)
    (hwf' : UnescWF t0' rest')
    (hskel : rest'.map Prod.fst = rest.map Prod.fst)
    (hlr : ∀ d ∈ rest.map Prod.fst, d = Tok.lb ∨ d = Tok.rb)
    (htf : tf (escapeBody p.revision.text.text) = some (render escR t0' rest')) :
    escapeBody p.revision.text.text = render escR t0 rest ∧
      workerStep tf p = some (marshalIndent (setBody p (render origR t0' rest'))) := by
  have hesc : escapeBody p.revision.text.text = render escR t0 rest := by
    rw [hbody]
    exact escape_render t0 rest hwf
  have hfin : unescapeBody (render escR t0' rest') = render finR t0' rest' :=
    unescape_render t0' rest' hwf'
  have hcongr : render finR t0' rest' = render origR t0' rest' := by
    apply render_congr
    intro d hd
    rcases hlr d (hskel ▸ hd) with rfl | rfl <;> rfl
  refine ⟨hesc, ?_⟩
  simp [workerStep, hred, htf, hfin, hcongr]

/-- C3 witness: scenario C.  Body `Hello [[World]].` is escaped to
`Hello <SPEC_START>World<SPEC_END>.`, the transformer answers
`Hi <SPEC_START>World<SPEC_END>.`, and the emitted body is
`Hi [[World]].`. -/
theorem c3_witness :
    escapeBody pageC.revision.text.text = render escR t0C restC ∧
      workerStep tfC pageC = some (marshalIndent (setBody pageC (render origR t0C' restC))) :=
  c3_placeholder_round_trip tfC pageC t0C t0C' restC restC (by decide) (by decide)
    (by decide) (by decide) rfl (by decide) (by decide)

/-- C10: on a non-redirect record whose body contains a literal
occurrence of a sentinel placeholder (an `st` or `en` token in its
tokenization), even the identity transformer produces a final body in
which that occurrence has been rewritten to `[[` or `]]` (the `finR`
rendering), so unescape after escape is not the identity there. -/
theorem c10_sentinel_escape_not_roundtrip (p : Page) (t0 : List Char)
    (rest : List (Tok × List Char))
    (hbody : p.revision.text.text = render origR t0 rest)
    (hred : redirectTok.isPrefixOf p.revision.text.text = false)
    (hwf : EscWF t0 rest)
    (hst : Tok.st ∈ rest.map Prod.fst ∨ Tok.en ∈ rest.map Prod.fst) :
    workerStep (fun s => some s) p =
      some (marshalIndent (setBody p (render finR t0 rest))) ∧
      unescapeBody (escapeBody p.revision.text.text) = render finR t0 rest ∧
      unescapeBody (escapeBody p.revision.text.text) ≠ p.revision.text.text := by
  have hesc : escapeBody p.revision.text.text = render escR t0 rest := by
    rw [hbody]
    exact escape_render t0 rest hwf
  have hun : unescapeBody (render escR t0 rest) = render finR t0 rest :=
    unescape_render t0 rest (escWF_unescWF t0 rest hwf)
  have hne : render finR t0 rest ≠ p.revision.text.text := by
    intro he
    have hlen := render_fin_lt t0 rest hst
    have h2 : render finR t0 rest = render origR t0 rest := he.trans hbody
    rw [h2] at hlen
    exact absurd hlen (lt_irrefl _)
  refine ⟨?_, by rw [hesc, hun], by rw [hesc, hun]; exact hne⟩
  simp [workerStep, hred, hesc, hun]

/-- C10 witness: body `A<SPEC_START>B` survives the identity
transformer as `A[[B`: the literal sentinel has been rewritten. -/
theorem c10_witness :
    workerStep (fun s => some s) pageS =
      some (marshalIndent (setBody pageS (render finR (("A").toList)
        [(Tok.st, ("B").toList)]))) ∧
      unescapeBody (escapeBody pageS.revision.text.text) =
        render finR (("A").toList) [(Tok.st, ("B").toList)] ∧
      unescapeBody (escapeBody pageS.revision.text.text) ≠ pageS.revision.text.text :=
  c10_sentinel_escape_not_roundtrip pageS (("A").toList) [(Tok.st, ("B").toList)]
    (by decide) (by decide) (by decide) (by decide)
